import Mathlib

/-!
Verification of the `fileserver` repository (src/main.go) against its
specification.  The Go program is shallowly embedded below: the pure path
arithmetic (`filepath.Clean`, `filepath.Join`, `filepath.Abs`,
`strings.HasPrefix`, `strings.TrimSuffix`, `filepath.Dir`) is modelled over
`List Char` / `String`, the per-request filesystem outcomes are modelled by an
oracle record `FS`, and the HTTP handlers (`handleRequest`, `handleDirectory`,
`handleFile`) are modelled as functions from that oracle to a `Response`.
-/

namespace Fileserver

/-! ## Path arithmetic (path/filepath, Unix rules)

`filepath.Clean` (lines 139, and inside `filepath.Join`) implements the Plan 9
path-cleaning algorithm: split the path on separators, drop empty and `.`
elements, resolve `..` against the element stack (dropping a leading `..` when
the path is rooted), and join the surviving elements back with `/`.  We model
exactly that algorithm. -/

/-- A path is rooted (absolute, on Unix) when its first byte is `/`.
Models `path[0] == '/'` in Go's `filepath` package. -/
def goRooted (s : String) : Bool := s.data.head? = some '/'

/-- Split a character list on `/`, discarding empty elements.  `cur` is the
(separator-free) element currently being accumulated. -/
def splitPathAux (cur : List Char) : List Char → List String
  | [] => if cur.isEmpty then [] else [String.mk cur]
  | c :: cs =>
    if c = '/' then
      if cur.isEmpty then splitPathAux [] cs
      else String.mk cur :: splitPathAux [] cs
    else splitPathAux (cur ++ [c]) cs

/-- The non-empty `/`-separated elements of a path string. -/
def splitPath (s : String) : List String := splitPathAux [] s.data

/-- Process path elements against a stack (`acc`, most recent first):
`.` is dropped, `..` pops a non-`..` stack entry, is dropped at the root of a
rooted path, and is kept otherwise.  This is the element-level content of the
Plan 9 `Clean` loop used by Go's `filepath.Clean`. -/
def cleanElems (rooted : Bool) (acc : List String) : List String → List String
  | [] => acc.reverse
  | c :: cs =>
    if c = "." then cleanElems rooted acc cs
    else if c = ".." then
      match acc with
      | [] => if rooted then cleanElems rooted [] cs else cleanElems rooted [".."] cs
      | a :: as =>
        if a = ".." then cleanElems rooted (".." :: a :: as) cs
        else cleanElems rooted as cs
    else cleanElems rooted (c :: acc) cs

/-- Join path elements with `/` (Go's `strings.Join(elems, "/")`). -/
def joinPath : List String → String
  | [] => ""
  | [a] => a
  | a :: b :: rest => a ++ "/" ++ joinPath (b :: rest)

/-- Model of Go's `filepath.Clean` on Unix: canonical form of a path.
A rooted path becomes `/` + the cleaned elements joined by `/` (which is just
`/` when no element survives); a relative path becomes the cleaned elements
joined by `/`, or `.` when nothing survives. -/
def goClean (p : String) : String :=
  if goRooted p then
    "/" ++ joinPath (cleanElems true [] (splitPath p))
  else
    let out := joinPath (cleanElems false [] (splitPath p))
    if out = "" then "." else out

/-- Model of Go's `filepath.Join(a, b)`: the non-empty arguments joined by the
separator, then cleaned; `""` when both are empty. -/
def goJoin (a b : String) : String :=
  if a ≠ "" then goClean (a ++ "/" ++ b)
  else if b ≠ "" then goClean b
  else ""

/-- Model of Go's `filepath.Abs(p)` given the working directory `cwd`: a
rooted path is just cleaned, a relative path is joined onto `cwd`.  (The Go
function can only fail when the working directory cannot be determined, an
environment error outside this model.) -/
def goAbs (cwd p : String) : String :=
  if goRooted p then goClean p else goJoin cwd p

/-- Model of `(*Server).isPathSafe` (src/main.go lines 138-148):

    cleanPath := filepath.Clean(requestPath)
    fullPath  := filepath.Join(s.rootDir, cleanPath)
    absPath, err := filepath.Abs(fullPath)
    if err != nil { return false }
    return strings.HasPrefix(absPath, s.rootDir)

`strings.HasPrefix(s, pre)` is byte-level string-prefix, modelled as
`pre.data.isPrefixOf s.data`. -/
def isPathSafe (cwd rootDir requestPath : String) : Bool :=
  let cleanPath := goClean requestPath
  let fullPath := goJoin rootDir cleanPath
  let absPath := goAbs cwd fullPath
  rootDir.data.isPrefixOf absPath.data

/-- The absolute path the server actually touches for an accepted request:
`fullPath := filepath.Join(s.rootDir, requestPath)` (src/main.go line 169).
For the safety analysis we phrase resolution the way `isPathSafe` computes it:
clean the request path, join it onto the root. -/
def resolvePath (rootDir requestPath : String) : String :=
  goJoin rootDir (goClean requestPath)

/-! ## formatSize (src/main.go lines 48-59)

    func formatSize(size int64) string {
        const unit = 1024
        if size < unit { return fmt.Sprintf("%d B", size) }
        div, exp := int64(unit), 0
        for n := size / unit; n >= unit; n /= unit { div *= unit; exp++ }
        return fmt.Sprintf("%.1f %cB", float64(size)/float64(div), "KMGTPE"[exp])
    }

The loop is modelled on `Nat` (it only runs when `size ≥ 1024`).  The `%.1f`
rendering is modelled by exact rational rounding to tenths with round half to
even, which agrees with Go's float64 formatting on every value whose quotient
is exactly representable (all values the specification pins down). -/

/-- The `for n := size / unit; n >= unit; n /= unit` loop of `formatSize`:
returns the final `(div, exp)`. -/
def fsLoop (n div exp : Nat) : Nat × Nat :=
  if h : 1024 ≤ n then fsLoop (n / 1024) (div * 1024) (exp + 1) else (div, exp)
termination_by n
decreasing_by exact Nat.div_lt_self (by omega) (by omega)

/-- `%.1f` of the exact ratio `num / den`: round to tenths, half to even,
then print one digit after the decimal point. -/
def fmtFixed1 (num den : Nat) : String :=
  let t10 := num * 10
  let q := t10 / den
  let r := t10 % den
  let t := if 2 * r < den then q
           else if den < 2 * r then q + 1
           else if q % 2 = 0 then q else q + 1
  toString (t / 10) ++ "." ++ toString (t % 10)

/-- The `%c` unit character `"KMGTPE"[exp]` (for an `int64` byte count the
index is always in range, so the default branch is unreachable). -/
def unitChar (exp : Nat) : Char := "KMGTPE".data.getD exp '?'

/-- Model of `formatSize` (src/main.go lines 48-59). -/
def formatSize (size : Int) : String :=
  if size < 1024 then toString size ++ " B"
  else
    let s := size.toNat
    let de := fsLoop (s / 1024) 1024 0
    fmtFixed1 s de.1 ++ " " ++ String.mk [unitChar de.2] ++ "B"

/-! ## Directory listing: entry views and the sort (src/main.go lines 199-296) -/

/-- Entry type of a filesystem object, as reported by `stat`.  The Go code
only ever inspects `IsDir()`; the other constructors exist so that claims
about non-regular entries (devices, sockets, pipes) can be stated. -/
inductive FileType where
  | dir
  | regular
  | device
  | socket
  | namedPipe
  deriving DecidableEq, Repr

/-- The metadata the handlers read from `os.FileInfo`: name, size, modify
time (abstract tick count) and entry type. -/
structure EntryData where
  name : String
  size : Int
  modTime : Nat
  ftype : FileType
  deriving DecidableEq, Repr

/-- `info.IsDir()`. -/
def EntryData.isDir (e : EntryData) : Bool := e.ftype = FileType.dir

/-- The `FileInfo` view struct rendered into the listing template
(src/main.go lines 24-31). -/
structure FileInfo where
  name : String
  size : Int
  modTime : Nat
  isDir : Bool
  sizeStr : String
  modStr : String
  deriving DecidableEq, Repr

/-- Abstract rendering of `info.ModTime().Format("2006-01-02 15:04:05")`.
No claim inspects the shape of this string. -/
def fmtTimestamp (t : Nat) : String := toString t

/-- Construction of one `FileInfo` from a directory entry (src/main.go lines
250-261): `SizeStr` is `formatSize(info.Size())`, overridden to `"-"` for a
directory. -/
def mkFileInfo (e : EntryData) : FileInfo :=
  { name := e.name
    size := e.size
    modTime := e.modTime
    isDir := e.isDir
    sizeStr := if e.isDir then "-" else formatSize e.size
    modStr := fmtTimestamp e.modTime }

/-- `strings.ToLower`, restricted to the ASCII case mapping (sufficient for
every statement below). -/
def goToLower (s : String) : String := String.mk (s.data.map Char.toLower)

/-- Lexicographic comparison of character lists.  On valid UTF-8 strings
this coincides with Go's byte-wise `<` on strings. -/
def charListLt : List Char → List Char → Bool
  | [], [] => false
  | [], _ :: _ => true
  | _ :: _, [] => false
  | a :: as, b :: bs =>
    if a < b then true
    else if b < a then false
    else charListLt as bs

/-- Go's `<` on strings (byte-wise lexicographic). -/
def goStrLess (a b : String) : Bool := charListLt a.data b.data

/-- The comparator passed to `sort.Slice` (src/main.go lines 267-272):

    if files[i].IsDir != files[j].IsDir { return files[i].IsDir }
    return strings.ToLower(files[i].Name) < strings.ToLower(files[j].Name)
-/
def entLess (a b : FileInfo) : Bool :=
  if a.isDir ≠ b.isDir then a.isDir
  else goStrLess (goToLower a.name) (goToLower b.name)

/-- What Go's `sort.Slice` guarantees about its result (it is *not* a stable
sort): the output is a permutation of the input that is sorted with respect
to the comparator, i.e. no earlier element compares strictly greater than a
later one. -/
def IsSortOutput (input output : List FileInfo) : Prop :=
  output.Perm input ∧ output.Pairwise (fun a b => entLess b a = false)

instance (input output : List FileInfo) : Decidable (IsSortOutput input output) := by
  unfold IsSortOutput; infer_instance

/-! ## parentPath (src/main.go lines 274-280)

    var parentPath string
    if requestPath != "/" {
        parentPath = filepath.Dir(strings.TrimSuffix(requestPath, "/"))
        if parentPath != "/" { parentPath += "/" }
    }
-/

/-- The characters of `p` up to and including the last `/` (empty when there
is no `/`): the slice `path[:i+1]` that `filepath.Dir` cleans. -/
def upToLastSlash (cs : List Char) : List Char :=
  (cs.reverse.dropWhile (fun c => c ≠ '/')).reverse

/-- Model of Go's `filepath.Dir` on Unix: everything up to the last
separator, cleaned (`Clean("")` is `"."`). -/
def goDir (p : String) : String := goClean (String.mk (upToLastSlash p.data))

/-- Model of `strings.TrimSuffix(s, "/")`: remove one trailing `/` when
present. -/
def goTrimSlashSuffix (s : String) : String :=
  if s.data.getLast? = some '/' then String.mk s.data.dropLast else s

/-- The `parentPath` computed by `handleDirectory` (src/main.go lines
274-280). -/
def parentPathOf (requestPath : String) : String :=
  if requestPath = "/" then ""
  else
    let pp := goDir (goTrimSlashSuffix requestPath)
    if pp = "/" then pp else pp ++ "/"

/-! ## The request handlers (src/main.go lines 150-330)

Per-request filesystem outcomes are abstracted into an oracle record `FS`;
each field records the result the corresponding system call would return for
the single resolved target path of the request. -/

/-- Error kinds distinguished by the handlers via `os.IsNotExist` /
`os.IsPermission`. -/
inductive ErrKind where
  | notExist
  | permission
  | other
  deriving DecidableEq, Repr

/-- Outcomes of the filesystem operations one request performs. -/
structure FS where
  /-- `os.ReadDir(s.rootDir)` succeeds, i.e. `checkMountPointHealth` (lines
  129-136) returns nil. -/
  rootHealthy : Bool
  /-- `os.Stat(fullPath)` (line 178). -/
  statResult : Except ErrKind EntryData
  /-- `os.ReadDir(fullPath)` in `handleDirectory` (line 211), with entries
  whose `Info()` succeeded (lines 244-248 skip the others). -/
  readDirResult : Except ErrKind (List EntryData)
  /-- `os.Open(fullPath)` in `handleFile` (line 299). -/
  openResult : Except ErrKind Unit
  /-- `file.Stat()` in `handleFile` (line 311). -/
  openStatResult : Except ErrKind EntryData
  deriving Repr

/-- What a handler writes back. -/
inductive Body where
  /-- The plain-text message written by `http.Error`. -/
  | errorText : String → Body
  /-- The rendered `directory.html` listing. -/
  | listing : String → String → String → List FileInfo → Body
  /-- `http.ServeContent` streaming the opened file's bytes. -/
  | streamed : Body
  deriving DecidableEq, Repr

/-- The response observable at the client: status code, headers, body. -/
structure Response where
  status : Nat
  headers : List (String × String)
  body : Body
  deriving DecidableEq, Repr

/-- Model of `http.Error(w, msg, code)` over the headers already set on the
writer: it deletes any `Content-Length`, sets a plain-text `Content-Type`
and `X-Content-Type-Options: nosniff`, writes the status code and the
message. -/
def httpError (already : List (String × String)) (code : Nat) (msg : String) :
    Response :=
  { status := code
    headers := already.filter (fun kv => kv.1 ≠ "Content-Length") ++
      [("Content-Type", "text/plain; charset=utf-8"),
       ("X-Content-Type-Options", "nosniff")]
    body := Body.errorText msg }

/-- Model of `(*Server).handleDirectory` (src/main.go lines 199-296).  The
read-with-timeout race (lines 200-225) is concurrency glue: the model covers
the branch in which the read completes before the deadline.  `sortListing`
is one comparator-sorted permutation of the entries; `sort.Slice` only
promises *some* such permutation, which the relational statement
`IsSortOutput` captures (and the determinism claim is settled against). -/
def sortListing (files : List FileInfo) : List FileInfo :=
  files.mergeSort (fun a b => entLess b a = false)

/-- Model of `(*Server).handleDirectory`. -/
def handleDirectory (fs : FS) (requestPath : String) : Response :=
  match fs.readDirResult with
  | Except.error e =>
    if e = ErrKind.permission then httpError [] 403 "Access denied"
    else httpError [] 500 "Failed to read directory"
  | Except.ok entries =>
    let files := entries.map mkFileInfo
    let sorted := sortListing files
    { status := 200
      headers := [("Content-Type", "text/html; charset=utf-8"),
                  ("Cache-Control", "no-cache, no-store, must-revalidate")]
      body := Body.listing ("File Server - " ++ requestPath) requestPath
        (parentPathOf requestPath) sorted }

/-- The three headers set by `handleFile` before its directory safety-net
check (src/main.go lines 319-321). -/
def fileHeaders (info : EntryData) : List (String × String) :=
  [("Content-Length", toString info.size),
   ("Last-Modified", fmtTimestamp info.modTime),
   ("Accept-Ranges", "bytes")]

/-- Model of `(*Server).handleFile` (src/main.go lines 298-330): open the
target, stat the handle, set `Content-Length` / `Last-Modified` /
`Accept-Ranges`, reject a directory with 400, otherwise hand the handle to
`http.ServeContent`. -/
def handleFile (fs : FS) : Response :=
  match fs.openResult with
  | Except.error e =>
    if e = ErrKind.permission then httpError [] 403 "Access denied"
    else httpError [] 500 "Failed to open file"
  | Except.ok _ =>
    match fs.openStatResult with
    | Except.error _ => httpError [] 500 "Failed to get file info"
    | Except.ok info =>
      if info.isDir then
        httpError (fileHeaders info) 400 "Cannot serve directory as file"
      else
        { status := 200, headers := fileHeaders info, body := Body.streamed }

/-- Model of `(*Server).handleRequest` (src/main.go lines 150-197): method
check, path-safety check, mount-health check, stat, dispatch.  `cwd` is the
process working directory consulted by `filepath.Abs` (only relevant when
`rootDir` is not absolute). -/
def handleRequest (cwd rootDir : String) (method requestPath : String)
    (fs : FS) : Response :=
  if method ≠ "GET" then httpError [] 405 "Method not allowed"
  else if ¬ isPathSafe cwd rootDir requestPath then
    httpError [] 403 "Access denied"
  else if ¬ fs.rootHealthy then
    httpError [] 503 "Storage temporarily unavailable"
  else
    match fs.statResult with
    | Except.error ErrKind.notExist => httpError [] 404 "Not found"
    | Except.error ErrKind.permission => httpError [] 403 "Access denied"
    | Except.error ErrKind.other => httpError [] 500 "Internal server error"
    | Except.ok info =>
      if info.isDir then handleDirectory fs requestPath
      else handleFile fs

/-! ## Well-formed path segments -/

/-- A well-formed path segment: non-empty, separator-free, and not one of the
special elements `.` / `..`.  `filepath.Clean` produces exactly such segments,
and canonical paths are built from them. -/
def GoodSeg (x : String) : Prop :=
  x.data ≠ [] ∧ '/' ∉ x.data ∧ x ≠ "." ∧ x ≠ ".."

instance (x : String) : Decidable (GoodSeg x) := by
  unfold GoodSeg; infer_instance

/-! ## Concrete fixtures used by the closed statements below -/

/-- A character device entry (for instance `/dev/zero` bind-mounted into the
served tree): `stat` succeeds, `IsDir()` is false, `os.Open` succeeds. -/
def devEntry : EntryData :=
  { name := "zero", size := 0, modTime := 0, ftype := FileType.device }

/-- Filesystem oracle for a request whose target is the character device. -/
def fsDevice : FS :=
  { rootHealthy := true
    statResult := Except.ok devEntry
    readDirResult := Except.ok []
    openResult := Except.ok ()
    openStatResult := Except.ok devEntry }

/-- A directory entry as seen by `stat`. -/
def dirEntry : EntryData :=
  { name := "d", size := 4096, modTime := 7, ftype := FileType.dir }

/-- Filesystem oracle for a request that opens a directory in `handleFile`
(the race the line-324 safety net defends against). -/
def fsDirOpened : FS :=
  { rootHealthy := true
    statResult := Except.ok dirEntry
    readDirResult := Except.ok []
    openResult := Except.ok ()
    openStatResult := Except.ok dirEntry }

/-- Filesystem oracle where the target does not exist. -/
def fsMissing : FS :=
  { rootHealthy := true
    statResult := Except.error ErrKind.notExist
    readDirResult := Except.ok []
    openResult := Except.error ErrKind.notExist
    openStatResult := Except.error ErrKind.notExist }

/-- Filesystem oracle for an unhealthy root mount. -/
def fsUnhealthy : FS :=
  { fsMissing with rootHealthy := false }

/-- Two regular files whose names differ only by letter case, hence compare
equal under the case-insensitive listing comparator. -/
def entUpperA : FileInfo :=
  mkFileInfo { name := "A.txt", size := 1, modTime := 0, ftype := FileType.regular }

/-- See `entUpperA`. -/
def entLowerA : FileInfo :=
  mkFileInfo { name := "a.txt", size := 2, modTime := 0, ftype := FileType.regular }

/-- A directory view and a file view with distinct sort keys. -/
def entDirB : FileInfo :=
  mkFileInfo { name := "b", size := 4096, modTime := 0, ftype := FileType.dir }

/-- See `entDirB`. -/
def entFileC : FileInfo :=
  mkFileInfo { name := "c", size := 10, modTime := 0, ftype := FileType.regular }

/-! ## Helper lemmas about the path model -/

/-- String append acts as append on the underlying character lists. -/
theorem strData_append (s t : String) : (s ++ t).data = s.data ++ t.data := by
  cases s; cases t; rfl

/-- Appending the empty string is the identity. -/
theorem strAppend_empty (s : String) : s ++ "" = s := by
  apply String.ext
  rw [strData_append]
  simp

/-- String append is associative. -/
theorem strAppend_assoc (a b c : String) : a ++ b ++ c = a ++ (b ++ c) := by
  apply String.ext
  rw [strData_append, strData_append, strData_append, strData_append,
    List.append_assoc]

/-- A rooted string starts with the separator character. -/
theorem goRooted_data (s : String) (h : goRooted s = true) :
    ∃ t, s.data = '/' :: t := by
  unfold goRooted at h
  cases hd : s.data with
  | nil => rw [hd] at h; simp at h
  | cons c cs =>
    rw [hd] at h
    simp at h
    exact ⟨cs, by rw [h]⟩

/-- Conversely, a string whose characters start with `/` is rooted. -/
theorem goRooted_of_data (s : String) (t : List Char) (h : s.data = '/' :: t) :
    goRooted s = true := by
  unfold goRooted; rw [h]; rfl

/-- Splitting a separator-free character list yields at most one element. -/
theorem splitPathAux_no_slash :
    ∀ (cs cur : List Char), (∀ c ∈ cs, c ≠ '/') →
      splitPathAux cur cs =
        if (cur ++ cs).isEmpty then [] else [String.mk (cur ++ cs)] := by
  intro cs
  induction cs with
  | nil => intro cur _; simp [splitPathAux]
  | cons c cs ih =>
    intro cur h
    have hc : c ≠ '/' := h c (List.mem_cons_self c cs)
    have hrest : ∀ x ∈ cs, x ≠ '/' := fun x hx => h x (List.mem_cons_of_mem c hx)
    simp only [splitPathAux, if_neg hc]
    rw [ih (cur ++ [c]) hrest]
    simp

/-- Splitting distributes over a separator occurrence. -/
theorem splitPathAux_append :
    ∀ (xs cur ys : List Char),
      splitPathAux cur (xs ++ '/' :: ys) =
        splitPathAux cur xs ++ splitPathAux [] ys := by
  intro xs
  induction xs with
  | nil =>
    intro cur ys
    by_cases hc : cur.isEmpty <;> simp [splitPathAux, hc]
  | cons x xs ih =>
    intro cur ys
    by_cases hx : x = '/'
    · subst hx
      by_cases hc : cur.isEmpty <;> simp [splitPathAux, hc, ih]
    · simp [splitPathAux, hx, ih]

/-- `joinPath` of a list with at least two elements, at the data level. -/
theorem joinPath_data_cons (a : String) (l : List String) (h : l ≠ []) :
    (joinPath (a :: l)).data = a.data ++ '/' :: (joinPath l).data := by
  cases l with
  | nil => exact absurd rfl h
  | cons b rest =>
    show (a ++ "/" ++ joinPath (b :: rest)).data = _
    rw [strData_append, strData_append]
    simp

/-- Splitting a joined list of non-empty separator-free elements recovers
the list. -/
theorem splitPath_joinPath :
    ∀ (l : List String), (∀ x ∈ l, x.data ≠ [] ∧ '/' ∉ x.data) →
      splitPath (joinPath l) = l := by
  intro l
  induction l with
  | nil => intro _; rfl
  | cons a l ih =>
    intro h
    have ha := h a (List.mem_cons_self a l)
    have hrest : ∀ x ∈ l, x.data ≠ [] ∧ '/' ∉ x.data :=
      fun x hx => h x (List.mem_cons_of_mem a hx)
    cases l with
    | nil =>
      show splitPathAux [] a.data = [a]
      rw [splitPathAux_no_slash a.data []
        (fun c hc => by intro hcc; exact ha.2 (hcc ▸ hc))]
      simp [List.isEmpty_iff, ha.1]
    | cons b rest =>
      unfold splitPath
      rw [joinPath_data_cons a (b :: rest) (by simp), splitPathAux_append]
      have h1 : splitPathAux [] a.data = [a] := by
        rw [splitPathAux_no_slash a.data []
          (fun c hc => by intro hcc; exact ha.2 (hcc ▸ hc))]
        simp [List.isEmpty_iff, ha.1]
      rw [h1]
      have h2 := ih hrest
      unfold splitPath at h2
      rw [h2]
      rfl

/-- `cleanElems` is the identity (over the accumulator) on element lists
without `.` or `..`. -/
theorem cleanElems_no_dots :
    ∀ (cs : List String) (rooted : Bool) (acc : List String),
      (∀ x ∈ cs, x ≠ "." ∧ x ≠ "..") →
      cleanElems rooted acc cs = acc.reverse ++ cs := by
  intro cs
  induction cs with
  | nil => intro rooted acc _; simp [cleanElems]
  | cons c cs ih =>
    intro rooted acc h
    have hc := h c (List.mem_cons_self c cs)
    have hrest : ∀ x ∈ cs, x ≠ "." ∧ x ≠ ".." :=
      fun x hx => h x (List.mem_cons_of_mem c hx)
    simp only [cleanElems, if_neg hc.1, if_neg hc.2]
    rw [ih rooted (c :: acc) hrest]
    simp

/-- Elements surviving `cleanElems` over a rooted path come from the
accumulator or are non-dot elements of the input. -/
theorem mem_cleanElems_true :
    ∀ (cs acc : List String) (x : String), x ∈ cleanElems true acc cs →
      x ∈ acc ∨ (x ∈ cs ∧ x ≠ "." ∧ x ≠ "..") := by
  intro cs
  induction cs with
  | nil =>
    intro acc x hx
    left
    simpa [cleanElems] using hx
  | cons c cs ih =>
    intro acc x hx
    by_cases hdot : c = "."
    · subst hdot
      simp only [cleanElems, if_pos rfl] at hx
      rcases ih acc x hx with h | h
      · exact Or.inl h
      · exact Or.inr ⟨List.mem_cons_of_mem _ h.1, h.2⟩
    · by_cases hdd : c = ".."
      · subst hdd
        cases acc with
        | nil =>
          rw [show cleanElems true [] (".." :: cs) = cleanElems true [] cs by
            simp [cleanElems, hdot]] at hx
          rcases ih [] x hx with h | h
          · cases h
          · exact Or.inr ⟨List.mem_cons_of_mem _ h.1, h.2⟩
        | cons a as =>
          by_cases ha : a = ".."
          · rw [show cleanElems true (a :: as) (".." :: cs) =
                cleanElems true (".." :: a :: as) cs by
              simp [cleanElems, hdot, ha]] at hx
            rcases ih (".." :: a :: as) x hx with h | h
            · rcases List.mem_cons.1 h with h1 | h2
              · exact Or.inl (h1 ▸ ha ▸ List.mem_cons_self a as)
              · exact Or.inl h2
            · exact Or.inr ⟨List.mem_cons_of_mem _ h.1, h.2⟩
          · rw [show cleanElems true (a :: as) (".." :: cs) =
                cleanElems true as cs by
              simp [cleanElems, hdot, ha]] at hx
            rcases ih as x hx with h | h
            · exact Or.inl (List.mem_cons_of_mem a h)
            · exact Or.inr ⟨List.mem_cons_of_mem _ h.1, h.2⟩
      · simp only [cleanElems, if_neg hdot, if_neg hdd] at hx
        rcases ih (c :: acc) x hx with h | h
        · rcases List.mem_cons.1 h with h1 | h2
          · exact Or.inr ⟨h1 ▸ List.mem_cons_self c cs, h1 ▸ hdot, h1 ▸ hdd⟩
          · exact Or.inl h2
        · exact Or.inr ⟨List.mem_cons_of_mem _ h.1, h.2⟩

/-- Every element produced by the splitter is non-empty and
separator-free. -/
theorem mem_splitPathAux :
    ∀ (cs cur : List Char) (x : String), (∀ c ∈ cur, c ≠ '/') →
      x ∈ splitPathAux cur cs → x.data ≠ [] ∧ '/' ∉ x.data := by
  intro cs
  induction cs with
  | nil =>
    intro cur x hcur hx
    by_cases hc : cur.isEmpty
    · simp [splitPathAux, hc] at hx
    · simp only [splitPathAux, if_neg hc, List.mem_singleton] at hx
      subst hx
      refine ⟨?_, ?_⟩
      · show cur ≠ []
        intro hnil
        rw [hnil] at hc
        exact hc rfl
      · intro hmem
        exact hcur '/' hmem rfl
  | cons c cs ih =>
    intro cur x hcur hx
    by_cases hslash : c = '/'
    · subst hslash
      by_cases hc : cur.isEmpty
      · rw [show splitPathAux cur ('/' :: cs) = splitPathAux [] cs by
          simp [splitPathAux, hc]] at hx
        exact ih [] x (by simp) hx
      · rw [show splitPathAux cur ('/' :: cs) =
            String.mk cur :: splitPathAux [] cs by
          simp [splitPathAux, hc]] at hx
        rcases List.mem_cons.1 hx with h1 | h2
        · subst h1
          refine ⟨?_, ?_⟩
          · show cur ≠ []
            intro hnil
            rw [hnil] at hc
            exact hc rfl
          · intro hmem
            exact hcur '/' hmem rfl
        · exact ih [] x (by simp) h2
    · rw [show splitPathAux cur (c :: cs) = splitPathAux (cur ++ [c]) cs by
        simp [splitPathAux, hslash]] at hx
      refine ih (cur ++ [c]) x ?_ hx
      intro d hd
      rcases List.mem_append.1 hd with h1 | h2
      · exact hcur d h1
      · rw [List.mem_singleton.1 h2]
        exact hslash

/-- `joinPath` over non-empty well-formed segments yields a non-empty
string. -/
theorem joinPath_data_ne_nil :
    ∀ (l : List String), l ≠ [] → (∀ x ∈ l, GoodSeg x) →
      (joinPath l).data ≠ [] := by
  intro l hl hgood
  cases l with
  | nil => exact absurd rfl hl
  | cons a rest =>
    cases rest with
    | nil => exact (hgood a (List.mem_cons_self a [])).1
    | cons b r =>
      rw [joinPath_data_cons a (b :: r) (by simp)]
      intro h
      have := List.append_eq_nil.1 h
      exact (List.cons_ne_nil _ _) this.2

/-- `joinPath` distributes over list append (for non-empty halves). -/
theorem joinPath_append :
    ∀ (l m : List String), l ≠ [] → m ≠ [] →
      joinPath (l ++ m) = joinPath l ++ "/" ++ joinPath m := by
  intro l
  induction l with
  | nil => intro m h _; exact absurd rfl h
  | cons a l ih =>
    intro m _ hm
    cases l with
    | nil =>
      cases m with
      | nil => exact absurd rfl hm
      | cons b m' => rfl
    | cons b l' =>
      have step : joinPath ((a :: b :: l') ++ m) =
          a ++ "/" ++ joinPath ((b :: l') ++ m) := by
        show joinPath (a :: ((b :: l') ++ m)) = _
        rw [List.cons_append]
        rfl
      rw [step, ih m (by simp) hm, ← strAppend_assoc, ← strAppend_assoc]
      rfl

/-- A list is a `isPrefixOf`-prefix of itself extended by anything. -/
theorem isPrefixOf_append_self :
    ∀ (xs ys : List Char), xs.isPrefixOf (xs ++ ys) = true := by
  intro xs ys
  induction xs with
  | nil => simp
  | cons c cs ih => simp [List.isPrefixOf_cons₂, ih]

/-- The rooted branch of `goClean`, written out. -/
theorem goClean_rooted (p : String) (hp : goRooted p = true) :
    goClean p = "/" ++ joinPath (cleanElems true [] (splitPath p)) := by
  simp [goClean, hp]

/-- Every element of a cleaned rooted path is a well-formed segment. -/
theorem goodSegs_of_clean (p : String) :
    ∀ x ∈ cleanElems true [] (splitPath p), GoodSeg x := by
  intro x hx
  rcases mem_cleanElems_true (splitPath p) [] x hx with h | h
  · cases h
  · have h2 := mem_splitPathAux p.data [] x (by simp) h.1
    exact ⟨h2.1, h2.2, h.2.1, h.2.2⟩

/-- `goClean` fixes canonical rooted paths built from well-formed
segments. -/
theorem goClean_canonical (l : List String) (h : ∀ x ∈ l, GoodSeg x) :
    goClean ("/" ++ joinPath l) = "/" ++ joinPath l := by
  have hdata : ("/" ++ joinPath l).data = '/' :: (joinPath l).data := by
    rw [strData_append]; rfl
  have hroot : goRooted ("/" ++ joinPath l) = true := goRooted_of_data _ _ hdata
  rw [goClean_rooted _ hroot]
  have hsplit : splitPath ("/" ++ joinPath l) = l := by
    unfold splitPath
    rw [hdata]
    have hstep : splitPathAux [] ('/' :: (joinPath l).data) =
        splitPathAux [] (joinPath l).data := by
      simp [splitPathAux]
    rw [hstep]
    exact splitPath_joinPath l (fun x hx => ⟨(h x hx).1, (h x hx).2.1⟩)
  rw [hsplit,
    cleanElems_no_dots l true [] (fun x hx => ⟨(h x hx).2.2.1, (h x hx).2.2.2⟩)]
  simp

/-! ## Helper lemmas for parentPath -/

/-- `upToLastSlash` cuts just after the last separator. -/
theorem upToLastSlash_append (xs ys : List Char) (h : ∀ c ∈ ys, c ≠ '/') :
    upToLastSlash (xs ++ '/' :: ys) = xs ++ ['/'] := by
  unfold upToLastSlash
  rw [List.reverse_append, List.reverse_cons, List.append_assoc]
  rw [List.dropWhile_append_of_pos
    (fun c hc => by simp [h c (List.mem_reverse.1 hc)])]
  simp [List.dropWhile_cons]

/-- The last character of a canonical rooted path is not the separator. -/
theorem joinPath_getLast_ne_slash :
    ∀ (l : List String), l ≠ [] → (∀ x ∈ l, GoodSeg x) →
      ∀ c, ('/' :: (joinPath l).data).getLast? = some c → c ≠ '/' := by
  intro l
  induction l with
  | nil => intro h; exact absurd rfl h
  | cons a rest ih =>
    intro _ hgood c hc
    cases rest with
    | nil =>
      have ha := hgood a (List.mem_cons_self a [])
      rw [show ('/' :: (joinPath [a]).data) = ['/'] ++ a.data from rfl,
        List.getLast?_append_of_ne_nil ['/'] ha.1] at hc
      have h2 := List.getLast?_eq_getLast a.data ha.1
      rw [h2] at hc
      have heq : a.data.getLast ha.1 = c := Option.some.inj hc
      have hmem : c ∈ a.data := heq ▸ List.getLast_mem ha.1
      intro hcc
      exact ha.2.1 (hcc ▸ hmem)
    | cons b r =>
      have hjd : (joinPath (a :: b :: r)).data =
          a.data ++ '/' :: (joinPath (b :: r)).data :=
        joinPath_data_cons a (b :: r) (by simp)
      rw [hjd,
        show '/' :: (a.data ++ '/' :: (joinPath (b :: r)).data) =
          ('/' :: a.data) ++ ('/' :: (joinPath (b :: r)).data) from rfl,
        List.getLast?_append_of_ne_nil _ (List.cons_ne_nil _ _)] at hc
      exact ih (by simp) (fun x hx => hgood x (List.mem_cons_of_mem a hx)) c hc

/-- `strings.TrimSuffix(s, "/")` leaves a canonical rooted path without a
trailing separator unchanged. -/
theorem trim_no_trailing (l : List String) (hne : l ≠ [])
    (hgood : ∀ x ∈ l, GoodSeg x) :
    goTrimSlashSuffix ("/" ++ joinPath l) = "/" ++ joinPath l := by
  unfold goTrimSlashSuffix
  have hdata : ("/" ++ joinPath l).data = '/' :: (joinPath l).data := by
    rw [strData_append]; rfl
  have hlast : ¬ ("/" ++ joinPath l).data.getLast? = some '/' := by
    rw [hdata]
    intro h
    exact joinPath_getLast_ne_slash l hne hgood '/' h rfl
  rw [if_neg hlast]

/-- `strings.TrimSuffix(s, "/")` removes the trailing separator of a
canonical rooted directory path. -/
theorem trim_trailing (l : List String) :
    goTrimSlashSuffix ("/" ++ joinPath l ++ "/") = "/" ++ joinPath l := by
  unfold goTrimSlashSuffix
  have hdata : ("/" ++ joinPath l ++ "/").data =
      ('/' :: (joinPath l).data) ++ ['/'] := by
    rw [strData_append, strData_append]; rfl
  rw [hdata, List.getLast?_concat, if_pos rfl, List.dropLast_concat]
  apply String.ext
  show '/' :: (joinPath l).data = ("/" ++ joinPath l).data
  rw [strData_append]; rfl

/-- `filepath.Dir` of a single-segment rooted path is the root. -/
theorem goDir_single (a : String) (ha : GoodSeg a) :
    goDir ("/" ++ joinPath [a]) = "/" := by
  unfold goDir
  have hdata : ("/" ++ joinPath [a]).data = '/' :: a.data := by
    rw [strData_append]; rfl
  have h1 : upToLastSlash ('/' :: a.data) = ['/'] := by
    have h2 := upToLastSlash_append [] a.data
      (fun c hc => fun hcc => ha.2.1 (hcc ▸ hc))
    simpa using h2
  rw [hdata, h1]
  decide

/-- `filepath.Dir` of a canonical rooted path drops its last segment. -/
theorem goDir_multi (l : List String) (a : String) (hl : l ≠ [])
    (hgood : ∀ x ∈ l, GoodSeg x) (ha : GoodSeg a) :
    goDir ("/" ++ joinPath (l ++ [a])) = "/" ++ joinPath l := by
  unfold goDir
  have hdata : ("/" ++ joinPath (l ++ [a])).data =
      ('/' :: (joinPath l).data) ++ '/' :: a.data := by
    rw [joinPath_append l [a] hl (by simp)]
    simp [strData_append]
    rfl
  rw [hdata, upToLastSlash_append ('/' :: (joinPath l).data) a.data
    (fun c hc => fun hcc => ha.2.1 (hcc ▸ hc))]
  have hgdata : (String.mk (('/' :: (joinPath l).data) ++ ['/'])).data =
      '/' :: ((joinPath l).data ++ ['/']) := by simp
  have hrooted : goRooted (String.mk (('/' :: (joinPath l).data) ++ ['/'])) =
      true := goRooted_of_data _ _ hgdata
  rw [goClean_rooted _ hrooted]
  have hsplit : splitPath (String.mk (('/' :: (joinPath l).data) ++ ['/'])) =
      l := by
    unfold splitPath
    rw [hgdata]
    rw [show splitPathAux [] ('/' :: ((joinPath l).data ++ ['/'])) =
        splitPathAux [] ((joinPath l).data ++ ['/']) by simp [splitPathAux]]
    rw [show ((joinPath l).data ++ ['/'] : List Char) =
        (joinPath l).data ++ '/' :: [] from rfl]
    rw [splitPathAux_append]
    rw [show splitPathAux [] (joinPath l).data = splitPath (joinPath l)
      from rfl]
    rw [splitPath_joinPath l (fun x hx => ⟨(hgood x hx).1, (hgood x hx).2.1⟩)]
    simp [splitPathAux]
  rw [hsplit, cleanElems_no_dots l true []
    (fun x hx => ⟨(hgood x hx).2.2.1, (hgood x hx).2.2.2⟩)]
  simp

/-- A canonical rooted path over a non-empty segment list is not the bare
root string. -/
theorem canonical_ne_root (l : List String) (hl : l ≠ [])
    (hgood : ∀ x ∈ l, GoodSeg x) : "/" ++ joinPath l ≠ "/" := by
  intro h
  have hd := congrArg String.data h
  rw [strData_append] at hd
  have hjd : (joinPath l).data ≠ [] := joinPath_data_ne_nil l hl hgood
  cases hc : (joinPath l).data with
  | nil => exact hjd hc
  | cons c cs =>
    rw [show ("/" : String).data = ['/'] from rfl, hc] at hd
    simp at hd

/-! ## Helper lemmas for the listing sort -/

/-- Two lists that are permutations of one another, are both pairwise sorted
by `r`, and whose elements are pairwise `r`-antisymmetric, are equal. -/
theorem perm_pairwise_antisymm_eq {α : Type} {r : α → α → Prop} :
    ∀ (l1 l2 : List α), l1.Perm l2 → l1.Pairwise r → l2.Pairwise r →
      (∀ a ∈ l1, ∀ b ∈ l1, r a b → r b a → a = b) → l1 = l2 := by
  intro l1
  induction l1 with
  | nil => intro l2 hp _ _ _; exact (hp.symm.eq_nil).symm
  | cons a t ih =>
    intro l2 hp hs1 hs2 hanti
    cases l2 with
    | nil => exact absurd hp.eq_nil (by simp)
    | cons b t2 =>
      have hab : a = b := by
        by_cases h : a = b
        · exact h
        · have hbmem : b ∈ a :: t := hp.mem_iff.2 (List.mem_cons_self b t2)
          have hbt : b ∈ t := by
            cases List.mem_cons.1 hbmem with
            | inl hh => exact absurd hh.symm h
            | inr hh => exact hh
          have hamem : a ∈ b :: t2 := hp.mem_iff.1 (List.mem_cons_self a t)
          have hat2 : a ∈ t2 := by
            cases List.mem_cons.1 hamem with
            | inl hh => exact absurd hh h
            | inr hh => exact hh
          have hrab : r a b := (List.pairwise_cons.1 hs1).1 b hbt
          have hrba : r b a := (List.pairwise_cons.1 hs2).1 a hat2
          exact hanti a (List.mem_cons_self a t) b hbmem hrab hrba
      subst hab
      have htt : t.Perm t2 := hp.cons_inv
      have := ih t2 htt (List.pairwise_cons.1 hs1).2 (List.pairwise_cons.1 hs2).2
        (fun x hx y hy => hanti x (List.mem_cons_of_mem a hx)
          y (List.mem_cons_of_mem a hy))
      rw [this]

/-- `charListLt` is antisymmetric: two lists neither of which compares
strictly below the other are equal. -/
theorem charListLt_antisymm :
    ∀ as bs : List Char, charListLt as bs = false → charListLt bs as = false →
      as = bs := by
  intro as
  induction as with
  | nil =>
    intro bs h1 _
    cases bs with
    | nil => rfl
    | cons b bs => simp [charListLt] at h1
  | cons a as ih =>
    intro bs h1 h2
    cases bs with
    | nil => simp [charListLt] at h2
    | cons b bs =>
      by_cases hab : a < b
      · simp [charListLt, hab] at h1
      · by_cases hba : b < a
        · simp [charListLt, hba] at h2
        · have hcc : a = b := le_antisymm (not_lt.1 hba) (not_lt.1 hab)
          subst hcc
          have h1' : charListLt as bs = false := by
            simpa [charListLt, hab] using h1
          have h2' : charListLt bs as = false := by
            simpa [charListLt, hab] using h2
          rw [ih bs h1' h2']

/-- The listing comparator is antisymmetric on a pair of entries whose sort
keys (directory flag, lowercased name) determine them. -/
theorem entLess_antisymm (a b : FileInfo)
    (hkey : a.isDir = b.isDir → goToLower a.name = goToLower b.name → a = b)
    (h1 : entLess b a = false) (h2 : entLess a b = false) : a = b := by
  by_cases hd : a.isDir = b.isDir
  · apply hkey hd
    have e1 : goStrLess (goToLower b.name) (goToLower a.name) = false := by
      simpa [entLess, hd] using h1
    have e2 : goStrLess (goToLower a.name) (goToLower b.name) = false := by
      simpa [entLess, hd] using h2
    have := charListLt_antisymm (goToLower a.name).data (goToLower b.name).data
      e2 e1
    exact String.ext this
  · exfalso
    have e1 : b.isDir = false := by
      have : (if b.isDir ≠ a.isDir then b.isDir
              else goStrLess (goToLower b.name) (goToLower a.name)) = false := h1
      simpa [Ne.symm hd] using this
    have e2 : a.isDir = false := by
      have : (if a.isDir ≠ b.isDir then a.isDir
              else goStrLess (goToLower a.name) (goToLower b.name)) = false := h2
      simpa [hd] using this
    exact hd (e2.trans e1.symm)

/-! # Claim theorems -/

/-- C3 (counterexample): the listing sort does *not* produce one
deterministic order for every multiset of entries in every initial order.
`sort.Slice` only promises a comparator-sorted permutation, and two regular
files named `A.txt` and `a.txt` compare equal under the case-insensitive
comparator: both initial orders are already valid sort outputs of the same
multiset, yet they differ. -/
theorem c3_sort_not_deterministic :
    ¬ (∀ xs ys o1 o2 : List FileInfo, xs.Perm ys →
        IsSortOutput xs o1 → IsSortOutput ys o2 → o1 = o2) := by
  intro h
  have := h [entUpperA, entLowerA] [entLowerA, entUpperA]
    [entUpperA, entLowerA] [entLowerA, entUpperA]
    (by decide) (by decide) (by decide)
  exact absurd this (by decide)

/-- C3 (amended): for directory contents whose entries are determined by
their sort key — no two distinct entries agree on both the directory flag
and the case-insensitively lowered name — the sorted output is unique:
any two comparator-sorted permutations of the same multiset coincide, and
the output places directories before files and is case-insensitively
ascending within each group. -/
theorem c3_sort_unique (xs ys o1 o2 : List FileInfo)
    (hxy : xs.Perm ys)
    (h1 : IsSortOutput xs o1) (h2 : IsSortOutput ys o2)
    (hkey : ∀ a ∈ xs, ∀ b ∈ xs, a.isDir = b.isDir →
      goToLower a.name = goToLower b.name → a = b) :
    o1 = o2 ∧
    o1.Pairwise (fun a b =>
      (a.isDir = false → b.isDir = false) ∧
      (a.isDir = b.isDir →
        goStrLess (goToLower b.name) (goToLower a.name) = false)) := by
  have hperm : o1.Perm o2 := (h1.1.trans hxy).trans h2.1.symm
  constructor
  · apply perm_pairwise_antisymm_eq o1 o2 hperm h1.2 h2.2
    intro a ha b hb hrab hrba
    have hax : a ∈ xs := h1.1.mem_iff.1 ha
    have hbx : b ∈ xs := h1.1.mem_iff.1 hb
    exact entLess_antisymm a b (hkey a hax b hbx) hrab hrba
  · refine h1.2.imp ?_
    intro a b hr
    constructor
    · intro ha
      by_contra hb
      have hb' : b.isDir = true := by
        cases hbd : b.isDir with
        | false => exact absurd hbd hb
        | true => rfl
      have : entLess b a = true := by simp [entLess, hb', ha]
      rw [hr] at this; exact Bool.false_ne_true this
    · intro hd
      by_contra hlt
      have hlt' : goStrLess (goToLower b.name) (goToLower a.name) = true := by
        cases hv : goStrLess (goToLower b.name) (goToLower a.name) with
        | false => exact absurd hv hlt
        | true => rfl
      have : entLess b a = true := by simp [entLess, hd, hlt']
      rw [hr] at this; exact Bool.false_ne_true this

/-- Witness for `c3_sort_unique`: a directory and a file with distinct keys,
presented in two different input orders, have the single sorted output
`[entDirB, entFileC]`. -/
theorem c3_sort_unique_witness :
    ([entDirB, entFileC] : List FileInfo) = [entDirB, entFileC] ∧
    ([entDirB, entFileC] : List FileInfo).Pairwise (fun a b =>
      (a.isDir = false → b.isDir = false) ∧
      (a.isDir = b.isDir →
        goStrLess (goToLower b.name) (goToLower a.name) = false)) :=
  c3_sort_unique [entFileC, entDirB] [entDirB, entFileC]
    [entDirB, entFileC] [entDirB, entFileC]
    (by decide) (by decide) (by decide) (by decide)

/-- C1 (counter-evidence, code bug): `isPathSafe` with root `/srv/www`
accepts the request path `../www-other`, yet cleaning that path and joining
it onto the root yields `/srv/www-other`, which is neither the root nor an
extension of `root + "/"`.  The bare `strings.HasPrefix(absPath, s.rootDir)`
check (line 147) omits the separator the specification requires, so an
accepted path escapes into the sibling directory. -/
theorem c1_sibling_escape_bug :
    isPathSafe "/" "/srv/www" "../www-other" = true ∧
    resolvePath "/srv/www" "../www-other" = "/srv/www-other" ∧
    "/srv/www-other" ≠ "/srv/www" ∧
    ("/srv/www" ++ "/").data.isPrefixOf ("/srv/www-other" : String).data = false := by
  decide

/-- C2 (counter-evidence, code bug): a resolved path whose entry is a
character device — neither a directory nor a regular file — is not answered
with 400 or 404; `handleRequest` only tests `IsDir()`, dispatches the device
to `handleFile`, the open and stat succeed, and `http.ServeContent` streams
the device's bytes with status 200. -/
theorem c2_device_streamed_bug :
    devEntry.ftype ≠ FileType.dir ∧
    devEntry.ftype ≠ FileType.regular ∧
    (handleRequest "/" "/srv/www" "GET" "/zero" fsDevice).status = 200 ∧
    (handleRequest "/" "/srv/www" "GET" "/zero" fsDevice).body = Body.streamed := by
  decide

/-- C4: for an accepted GET request whose mount-health check passes, a
failing `stat` is mapped to exactly 404 (not exist), 403 (permission) or 500
(any other error) — src/main.go lines 178-190. -/
theorem c4_stat_error_mapping (cwd rootDir requestPath : String) (fs : FS)
    (e : ErrKind)
    (hsafe : isPathSafe cwd rootDir requestPath = true)
    (hhealth : fs.rootHealthy = true)
    (hstat : fs.statResult = Except.error e) :
    (handleRequest cwd rootDir "GET" requestPath fs).status =
      match e with
      | ErrKind.notExist => 404
      | ErrKind.permission => 403
      | ErrKind.other => 500 := by
  cases e <;> simp [handleRequest, hsafe, hhealth, hstat, httpError]

/-- Witness for `c4_stat_error_mapping`: a concrete missing target yields
status 404. -/
theorem c4_stat_error_mapping_witness :
    (handleRequest "/" "/srv/www" "GET" "/nosuch" fsMissing).status = 404 :=
  c4_stat_error_mapping "/" "/srv/www" "/nosuch" fsMissing ErrKind.notExist
    (by decide) (by decide) rfl

/-- C5: any request whose method is not GET is answered 405 regardless of
the request path or of any filesystem state — the check precedes the
path-safety and filesystem checks (src/main.go lines 157-160). -/
theorem c5_non_get_rejected (cwd rootDir method requestPath : String)
    (fs : FS) (h : method ≠ "GET") :
    handleRequest cwd rootDir method requestPath fs =
      httpError [] 405 "Method not allowed" := by
  simp [handleRequest, h]

/-- Witness for `c5_non_get_rejected`: a POST to an unsafe, nonexistent path
still gets the 405. -/
theorem c5_non_get_rejected_witness :
    handleRequest "/" "/srv/www" "POST" "../../etc/passwd" fsMissing =
      httpError [] 405 "Method not allowed" :=
  c5_non_get_rejected "/" "/srv/www" "POST" "../../etc/passwd" fsMissing
    (by decide)

/-- C6: `formatSize` prints an integer count with a ` B` suffix below 1024,
matches the five pinned values (base-1024 units, one decimal place at or
above 1024), and directory entries display `-` instead of a size
(src/main.go lines 48-59 and 259-261). -/
theorem c6_formatSize_spec :
    (∀ size : Int, size < 1024 → formatSize size = toString size ++ " B") ∧
    formatSize 0 = "0 B" ∧
    formatSize 1023 = "1023 B" ∧
    formatSize 1024 = "1.0 KB" ∧
    formatSize 1536 = "1.5 KB" ∧
    formatSize 1048576 = "1.0 MB" ∧
    (∀ e : EntryData, e.isDir = true → (mkFileInfo e).sizeStr = "-") := by
  refine ⟨fun size h => by simp [formatSize, h], by decide, by decide, ?_, ?_, ?_, ?_⟩
  · simp [formatSize, fsLoop, fmtFixed1, unitChar]; rfl
  · simp [formatSize, fsLoop, fmtFixed1, unitChar]; rfl
  · simp [formatSize, fsLoop, fmtFixed1, unitChar]; rfl
  · intro e h; simp [mkFileInfo, h]

/-- Witness for `c6_formatSize_spec`: the universally quantified conjuncts
instantiated at `500` bytes and at a concrete directory entry. -/
theorem c6_formatSize_spec_witness :
    formatSize 500 = "500 B" ∧ (mkFileInfo dirEntry).sizeStr = "-" :=
  ⟨c6_formatSize_spec.1 500 (by decide),
   c6_formatSize_spec.2.2.2.2.2.2 dirEntry (by decide)⟩

/-- C9: for a GET request with an accepted path, a failing root-directory
enumeration (`checkMountPointHealth`, src/main.go lines 129-136 and 171-176)
yields 503 before and regardless of the target's `stat` outcome: the
conclusion holds for every oracle with `rootHealthy = false`, whatever its
`statResult`. -/
theorem c9_unhealthy_mount_503 (cwd rootDir requestPath : String) (fs : FS)
    (hsafe : isPathSafe cwd rootDir requestPath = true)
    (hfail : fs.rootHealthy = false) :
    handleRequest cwd rootDir "GET" requestPath fs =
      httpError [] 503 "Storage temporarily unavailable" := by
  simp [handleRequest, hsafe, hfail]

/-- Witness for `c9_unhealthy_mount_503`. -/
theorem c9_unhealthy_mount_503_witness :
    handleRequest "/" "/srv/www" "GET" "/file" fsUnhealthy =
      httpError [] 503 "Storage temporarily unavailable" :=
  c9_unhealthy_mount_503 "/" "/srv/www" "/file" fsUnhealthy
    (by decide) (by decide)

/-- C10: when `handleFile` hits its directory safety net, the 400 response
is produced by `http.Error` over a header state that already carries the
three headers set on lines 319-321 from the directory's own stat —
`Content-Length` equal to the directory's size, `Last-Modified` from its
modification time, and `Accept-Ranges: bytes` — and the latter two survive
into the final response (`http.Error` drops `Content-Length`). -/
theorem c10_dir_safety_net_headers (fs : FS) (info : EntryData)
    (hopen : fs.openResult = Except.ok ())
    (hstat : fs.openStatResult = Except.ok info)
    (hdir : info.isDir = true) :
    handleFile fs = httpError (fileHeaders info) 400
        "Cannot serve directory as file" ∧
    ("Content-Length", toString info.size) ∈ fileHeaders info ∧
    ("Last-Modified", fmtTimestamp info.modTime) ∈ fileHeaders info ∧
    ("Accept-Ranges", "bytes") ∈ fileHeaders info ∧
    (handleFile fs).status = 400 ∧
    ("Last-Modified", fmtTimestamp info.modTime) ∈ (handleFile fs).headers ∧
    ("Accept-Ranges", "bytes") ∈ (handleFile fs).headers := by
  simp [handleFile, hopen, hstat, hdir, fileHeaders, httpError]

/-- C7: `parentPath` (src/main.go lines 274-280) is empty exactly at the
root request path `/`; for a well-formed directory request path
`/seg1/.../segN` (with or without the trailing separator) it is the path one
segment up — the bare root `/` when the parent is the root itself, and
otherwise `/seg1/.../segN-1/` with a trailing separator. -/
theorem c7_parent_path (s0 : String) (rest : List String) (trailing : Bool)
    (hgood : ∀ x ∈ s0 :: rest, GoodSeg x) :
    parentPathOf "/" = "" ∧
    parentPathOf
        ("/" ++ joinPath (s0 :: rest) ++ (if trailing then "/" else "")) =
      (if rest = [] then "/"
       else "/" ++ joinPath ((s0 :: rest).dropLast) ++ "/") := by
  refine ⟨by simp [parentPathOf], ?_⟩
  have hne : (s0 :: rest : List String) ≠ [] := by simp
  have hjdne : (joinPath (s0 :: rest)).data ≠ [] :=
    joinPath_data_ne_nil _ hne hgood
  have htrim : goTrimSlashSuffix
      ("/" ++ joinPath (s0 :: rest) ++ (if trailing then "/" else "")) =
      "/" ++ joinPath (s0 :: rest) := by
    cases trailing with
    | true => simpa using trim_trailing (s0 :: rest)
    | false =>
      simpa [strAppend_empty] using trim_no_trailing (s0 :: rest) hne hgood
  have hrpne :
      ("/" ++ joinPath (s0 :: rest) ++ (if trailing then "/" else "")) ≠
        "/" := by
    cases trailing with
    | true =>
      intro h
      have hd := congrArg String.data h
      rw [strData_append, strData_append] at hd
      have hlen := congrArg List.length hd
      simp at hlen
    | false =>
      intro h
      apply canonical_ne_root (s0 :: rest) hne hgood
      have h2 : "/" ++ joinPath (s0 :: rest) ++ "" = "/" := by simpa using h
      rwa [strAppend_empty] at h2
  unfold parentPathOf
  rw [if_neg hrpne, htrim]
  cases rest with
  | nil =>
    rw [goDir_single s0 (hgood s0 (List.mem_cons_self s0 []))]
    simp
  | cons b r =>
    have hfull : (s0 :: b :: r : List String) ≠ [] := by simp
    have hlast := List.dropLast_append_getLast hfull
    have hlne : (s0 :: b :: r : List String).dropLast ≠ [] := by
      have hlen : (s0 :: b :: r : List String).dropLast.length = r.length + 1 := by
        simp [List.length_dropLast]
      intro hb
      rw [hb] at hlen
      simp at hlen
    have hgoodl : ∀ x ∈ (s0 :: b :: r : List String).dropLast, GoodSeg x :=
      fun x hx => hgood x ((List.dropLast_sublist _).subset hx)
    have hgooda : GoodSeg ((s0 :: b :: r : List String).getLast hfull) :=
      hgood _ (List.getLast_mem hfull)
    rw [show joinPath (s0 :: b :: r) =
        joinPath ((s0 :: b :: r : List String).dropLast ++
          [(s0 :: b :: r : List String).getLast hfull]) by rw [hlast]]
    rw [goDir_multi _ _ hlne hgoodl hgooda]
    rw [if_neg (canonical_ne_root _ hlne hgoodl)]
    simp

/-- Witness for `c7_parent_path`: the directory request path `/docs/sub/`
has parent `/docs/`. -/
theorem c7_parent_path_witness :
    parentPathOf "/" = "" ∧
    parentPathOf
        ("/" ++ joinPath ["docs", "sub"] ++ (if true then "/" else "")) =
      (if (["sub"] : List String) = [] then "/"
       else "/" ++ joinPath (("docs" :: ["sub"]).dropLast) ++ "/") :=
  c7_parent_path "docs" ["sub"] true (by decide)

/-- C8: for every request path beginning with `/` — as every well-formed
HTTP URL path does — `isPathSafe` returns `true` whenever the server root is
a cleaned absolute path (which `NewServer` guarantees via `filepath.Abs`):
lexical cleaning of a rooted path removes every `..`, so the join never
escapes the root and the bare prefix check passes.  Consequently the 403
resolver-rejection branch of `handleRequest` is unreachable for rooted
request paths. -/
theorem c8_rooted_paths_accepted (cwd root p : String)
    (hclean : goClean root = root) (hroot : goRooted root = true)
    (hp : goRooted p = true) :
    isPathSafe cwd root p = true := by
  have hrlgood : ∀ x ∈ cleanElems true [] (splitPath root), GoodSeg x :=
    goodSegs_of_clean root
  have hmgood : ∀ x ∈ cleanElems true [] (splitPath p), GoodSeg x :=
    goodSegs_of_clean p
  set rl := cleanElems true [] (splitPath root)
  set m := cleanElems true [] (splitPath p)
  have hrooteq : root = "/" ++ joinPath rl := by
    conv_lhs => rw [← hclean]
    exact goClean_rooted root hroot
  have hcleanp : goClean p = "/" ++ joinPath m := goClean_rooted p hp
  have hrootne : root ≠ "" := by
    intro h
    rw [h] at hroot
    simp [goRooted] at hroot
  have hrootdata : root.data = '/' :: (joinPath rl).data := by
    rw [hrooteq, strData_append]; rfl
  have hcpdata : (goClean p).data = '/' :: (joinPath m).data := by
    rw [hcleanp, strData_append]; rfl
  have hjoin : goJoin root (goClean p) = goClean (root ++ "/" ++ goClean p) := by
    simp [goJoin, hrootne]
  have hfulldata : (root ++ "/" ++ goClean p).data =
      '/' :: ((joinPath rl).data ++ '/' :: ('/' :: (joinPath m).data)) := by
    rw [strData_append, strData_append, hrootdata, hcpdata]
    simp
  have hsplitfull : splitPath (root ++ "/" ++ goClean p) = rl ++ m := by
    unfold splitPath
    rw [hfulldata]
    rw [show splitPathAux []
          ('/' :: ((joinPath rl).data ++ '/' :: ('/' :: (joinPath m).data))) =
        splitPathAux [] ((joinPath rl).data ++ '/' :: ('/' :: (joinPath m).data))
      by simp [splitPathAux]]
    rw [splitPathAux_append]
    rw [show splitPathAux [] ('/' :: (joinPath m).data) =
        splitPathAux [] (joinPath m).data by simp [splitPathAux]]
    rw [show splitPathAux [] (joinPath rl).data = splitPath (joinPath rl)
        from rfl,
      show splitPathAux [] (joinPath m).data = splitPath (joinPath m) from rfl]
    rw [splitPath_joinPath rl (fun x hx => ⟨(hrlgood x hx).1, (hrlgood x hx).2.1⟩),
      splitPath_joinPath m (fun x hx => ⟨(hmgood x hx).1, (hmgood x hx).2.1⟩)]
  have hallgood : ∀ x ∈ rl ++ m, GoodSeg x := by
    intro x hx
    rcases List.mem_append.1 hx with h | h
    exacts [hrlgood x h, hmgood x h]
  have hfullrooted : goRooted (root ++ "/" ++ goClean p) = true :=
    goRooted_of_data _ _ hfulldata
  have hcleanfull : goClean (root ++ "/" ++ goClean p) =
      "/" ++ joinPath (rl ++ m) := by
    rw [goClean_rooted _ hfullrooted, hsplitfull,
      cleanElems_no_dots (rl ++ m) true []
        (fun x hx => ⟨(hallgood x hx).2.2.1, (hallgood x hx).2.2.2⟩)]
    simp
  have habs : goAbs cwd (goClean (root ++ "/" ++ goClean p)) =
      "/" ++ joinPath (rl ++ m) := by
    rw [hcleanfull]
    have hr2 : goRooted ("/" ++ joinPath (rl ++ m)) = true := by
      apply goRooted_of_data _ (joinPath (rl ++ m)).data
      rw [strData_append]; rfl
    simp [goAbs, hr2, goClean_canonical (rl ++ m) hallgood]
  show root.data.isPrefixOf
      (goAbs cwd (goJoin root (goClean p))).data = true
  rw [hjoin, habs, hrootdata, strData_append]
  rw [show ("/" : String).data ++ (joinPath (rl ++ m)).data =
      '/' :: (joinPath (rl ++ m)).data from rfl]
  rw [List.isPrefixOf_cons₂]
  simp only [beq_self_eq_true, Bool.true_and]
  cases hm : m with
  | nil =>
    rw [List.append_nil]
    have hself := isPrefixOf_append_self (joinPath rl).data []
    rw [List.append_nil] at hself
    exact hself
  | cons b m' =>
    cases hrl : rl with
    | nil => simp [joinPath]
    | cons a rl' =>
      rw [joinPath_append (a :: rl') (b :: m') (by simp) (by simp)]
      rw [strData_append, strData_append]
      rw [show ("/" : String).data = ['/'] from rfl]
      rw [List.append_assoc]
      exact isPrefixOf_append_self (joinPath (a :: rl')).data _

/-- Witness for `c8_rooted_paths_accepted`: the rooted traversal attempt
`/a/../b` against root `/srv/www` is accepted. -/
theorem c8_rooted_paths_accepted_witness :
    isPathSafe "/" "/srv/www" "/a/../b" = true :=
  c8_rooted_paths_accepted "/" "/srv/www" "/a/../b" (by decide) (by decide)
    (by decide)

/-- Witness for `c10_dir_safety_net_headers` on the concrete directory
oracle. -/
theorem c10_dir_safety_net_headers_witness :
    handleFile fsDirOpened = httpError (fileHeaders dirEntry) 400
        "Cannot serve directory as file" ∧
    ("Content-Length", toString dirEntry.size) ∈ fileHeaders dirEntry ∧
    ("Last-Modified", fmtTimestamp dirEntry.modTime) ∈ fileHeaders dirEntry ∧
    ("Accept-Ranges", "bytes") ∈ fileHeaders dirEntry ∧
    (handleFile fsDirOpened).status = 400 ∧
    ("Last-Modified", fmtTimestamp dirEntry.modTime) ∈
      (handleFile fsDirOpened).headers ∧
    ("Accept-Ranges", "bytes") ∈ (handleFile fsDirOpened).headers :=
  c10_dir_safety_net_headers fsDirOpened dirEntry rfl rfl (by decide)

end Fileserver
